import Mathlib

/-!
Shallow embedding of the cli-progress-table engine
(src/progress_table/progress_table.py) and verification of its
specification claims.

Cell values are opaque Python objects; the embedding uses a small
inductive type `PyVal` with the `defaultdict(str)` default being the
empty string.  Python dictionaries are modelled as insertion-ordered
association lists.  Reading a key from a `defaultdict` inserts the
default when the key is absent (auto-vivification); this is modelled
by `viv`.  Terminal output is pure text and carries no table state, so
only the state effects of each method are embedded.  Wall-clock time
inside the iteration wrapper is abstracted by two oracles: `fire idx`
tells whether the redraw-rate test passed at step `idx`, and `dur idx`
is the elapsed-time sample appended after step `idx`.
-/

/-- A cell value: an opaque renderable Python object. -/
inductive PyVal where
  | str (s : String)
  | int (n : Int)
  | float (q : ℚ)
deriving DecidableEq, Repr

/-- The default produced by `defaultdict(str)`: the empty string. -/
def PyVal.dflt : PyVal := PyVal.str ""

/-- Lookup in an association list with an explicit default, the read
behaviour of a Python `defaultdict`. -/
def lookupD {β : Type} (m : List (String × β)) (d : β) (k : String) : β :=
  match m with
  | [] => d
  | (k', v) :: rest => if k' = k then v else lookupD rest d k

/-- Whether the dictionary holds the key. -/
def hasKey {β : Type} (m : List (String × β)) (k : String) : Bool :=
  match m with
  | [] => false
  | (k', _) :: rest => k' = k || hasKey rest k

/-- Python `dict.__setitem__`: update in place if the key exists
(keeping its position), otherwise append at the end. -/
def setK {β : Type} (m : List (String × β)) (k : String) (v : β) : List (String × β) :=
  match m with
  | [] => [(k, v)]
  | (k', v') :: rest => if k' = k then (k, v) :: rest else (k', v') :: setK rest k v

/-- Auto-vivification: reading `m[k]` from a `defaultdict` inserts the
default when the key is absent. -/
def viv {β : Type} (m : List (String × β)) (d : β) (k : String) : List (String × β) :=
  if hasKey m k then m else m ++ [(k, d)]

/-- Vivification of each key of `ks` in order, as done by loops that
read `m[col]` for every column. -/
def vivAll {β : Type} (m : List (String × β)) (d : β) (ks : List String) :
    List (String × β) :=
  ks.foldl (fun acc k => viv acc d k) m

/-- State of a `ProgressTable` object: the fields set by `__init__`.
The `custom_formatting` map only rewrites printed text, never state,
so it is not part of the embedded state. -/
structure ProgressTable where
  default_width : Nat
  columns : List String
  num_rows : Nat
  widths : List (String × Nat)
  colors : List (String × Option String)
  values : List (String × PyVal)
  progress_bar_fps : ℚ
  header_printed : Bool
  needs_line_ending : Bool
  finished_rows : List (List (String × PyVal))
deriving DecidableEq, Repr

namespace ProgressTable

/-- `ProgressTable.__init__`. -/
def init (columns : List String) (default_column_width : Nat)
    (progress_bar_fps : ℚ) : ProgressTable :=
  { default_width := default_column_width
    columns := columns
    num_rows := 0
    widths := []
    colors := []
    values := []
    progress_bar_fps := progress_bar_fps
    header_printed := false
    needs_line_ending := false
    finished_rows := [] }

/-- The effective display width of a column: the `widths` defaultdict
read with default `default_width`. -/
def lookup_width (s : ProgressTable) (name : String) : Nat :=
  lookupD s.widths s.default_width name

/-- `ProgressTable.add_column`.  The leading assert means failure
happens before any mutation; the error payload is the state at the
point of failure. -/
def add_column (s : ProgressTable) (name : String) (width : Option Nat)
    (color : Option String) : Except ProgressTable ProgressTable :=
  if s.header_printed then Except.error s
  else
    let w0 := width.getD s.default_width
    let w := if w0 < name.length then name.length else w0
    Except.ok
      { s with
        columns := s.columns ++ [name]
        colors := match color with
          | some c => setK s.colors name (some c)
          | none => s.colors
        widths := setK s.widths name w }

/-- `ProgressTable.print_header` (including the border bars it draws):
reading `widths[col]` and `colors[col]` vivifies both dicts for every
column, and the header-printed flag is set. -/
def print_header (s : ProgressTable) : ProgressTable :=
  { s with
    widths := vivAll s.widths s.default_width s.columns
    colors := vivAll s.colors none s.columns
    header_printed := true }

/-- `ProgressTable.print_row`: prints the header first when needed,
returns early on an empty buffer, otherwise reads `values[col]`,
`widths[col]` and `colors[col]` for every column (vivifying all three
dicts) and records that a line ending is owed. -/
def print_row (s : ProgressTable) : ProgressTable :=
  let s1 := if s.header_printed then s else print_header s
  if s1.values.isEmpty then s1
  else
    { s1 with
      needs_line_ending := true
      values := vivAll s1.values PyVal.dflt s1.columns
      widths := vivAll s1.widths s1.default_width s1.columns
      colors := vivAll s1.colors none s1.columns }

/-- `ProgressTable.next_row`: terminates a pending line, appends the
buffer to the history and bumps the counter when saving a non-empty
buffer, and resets the buffer in every case. -/
def next_row (s : ProgressTable) (save : Bool) : ProgressTable :=
  { s with
    needs_line_ending := false
    finished_rows :=
      if save && !s.values.isEmpty then s.finished_rows ++ [s.values]
      else s.finished_rows
    num_rows :=
      if save && !s.values.isEmpty then s.num_rows + 1 else s.num_rows
    values := [] }

/-- `ProgressTable.close`: final row redraw, row advance (saving by
default), bottom border (whose drawing vivifies `widths`), and the
header flag is cleared. -/
def close (s : ProgressTable) : ProgressTable :=
  let s2 := next_row (print_row s) true
  { s2 with
    widths := vivAll s2.widths s2.default_width s2.columns
    header_printed := false }

/-- `ProgressTable.__setitem__`: asserts the key is a declared column
before any mutation; on success stores the value and redraws the row. -/
def setitem (s : ProgressTable) (key : String) (v : PyVal) :
    Except ProgressTable ProgressTable :=
  if key ∈ s.columns then
    Except.ok (print_row { s with values := setK s.values key v })
  else Except.error s

/-- `ProgressTable.to_list`: project the history through the column
order. -/
def to_list (s : ProgressTable) : List (List PyVal) :=
  s.finished_rows.map (fun row => s.columns.map (fun col => lookupD row PyVal.dflt col))

/-- One loop iteration of `ProgressTable.display_custom`: stage the
row into the buffer by direct dict writes over `zip(columns, row)`,
redraw, and advance without saving. -/
def dcRow (s : ProgressTable) (row : List PyVal) : ProgressTable :=
  let s1 :=
    { s with values := (s.columns.zip row).foldl (fun m kv => setK m kv.1 kv.2) s.values }
  next_row (print_row s1) false

/-- The loop of `ProgressTable.display_custom`: each row's length is
asserted against the column count before staging; the error payload is
the state at the point of failure.  After the loop the table is
closed. -/
def dcGo (s : ProgressTable) : List (List PyVal) → Except ProgressTable ProgressTable
  | [] => Except.ok (close s)
  | row :: rest =>
    if row.length = s.columns.length then dcGo (dcRow s row) rest
    else Except.error s

/-- `ProgressTable.display_custom`. -/
def display_custom (s : ProgressTable) (data : List (List PyVal)) :
    Except ProgressTable ProgressTable :=
  dcGo (if s.header_printed then close s else s) data

/-- `ProgressTable.display`. -/
def display (s : ProgressTable) : Except ProgressTable ProgressTable :=
  let s0 := if s.header_printed then close s else s
  display_custom s0 (to_list s0)

/-- The available width inside the progress bar, as computed by
`print_progress_bar`: sum of the stored widths plus per-gap overhead,
minus the prefix and suffix labels. -/
def tot_width (s : ProgressTable) (show_before show_after : String) : Int :=
  ((s.widths.map (fun p => p.2)).sum : Int) + 3 * ((s.widths.length : Int) - 1) + 2
    - (show_before.length : Int) - (show_after.length : Int)

/-- The fill glyph count of `print_progress_bar`:
`max(ceil(i / n * tot_width), 1)`. -/
def num_hashes (i n : Nat) (tw : Int) : Int :=
  max (Int.ceil ((i : ℚ) / (n : ℚ) * (tw : ℚ))) 1

/-- The empty glyph count of `print_progress_bar`. -/
def num_empty (i n : Nat) (tw : Int) : Int :=
  tw - num_hashes i n tw

/-- The public mutating operations of the table facade. -/
inductive Op where
  | addColumn (name : String) (width : Option Nat) (color : Option String)
  | setItem (key : String) (v : PyVal)
  | nextRow (save : Bool)
  | printRow
  | printHeader
  | closeOp
  | callIter
  | displayCustom (data : List (List PyVal))
  | displayOp
deriving DecidableEq, Repr

/-- The state left behind by a call: on an assertion failure the
raised error leaves the object exactly as it was when the assert
fired. -/
def settle : Except ProgressTable ProgressTable → ProgressTable
  | Except.ok s => s
  | Except.error s => s

/-- One operation applied to the table state.  `callIter` is the
table-state effect of `__call__`: header print on entry, row redraw on
exit (the in-loop progress bar only emits text). -/
def step (s : ProgressTable) (op : Op) : ProgressTable :=
  match op with
  | Op.addColumn n w c => settle (add_column s n w c)
  | Op.setItem k v => settle (setitem s k v)
  | Op.nextRow b => next_row s b
  | Op.printRow => print_row s
  | Op.printHeader => print_header s
  | Op.closeOp => close s
  | Op.callIter => print_row (if s.header_printed then s else print_header s)
  | Op.displayCustom d => settle (display_custom s d)
  | Op.displayOp => settle (display s)

/-- A whole call sequence applied to the table state. -/
def run (s : ProgressTable) (ops : List Op) : ProgressTable :=
  ops.foldl step s

/-- Names passed to `addColumn` operations, in call order. -/
def addedNames (ops : List Op) : List String :=
  ops.filterMap (fun op => match op with
    | Op.addColumn n _ _ => some n
    | _ => none)

end ProgressTable

/-- One progress-bar redraw emitted by the iteration wrapper: the
element index at which it fired and the throughput figure shown. -/
structure Redraw where
  idx : Nat
  shown : ℚ
deriving DecidableEq, Repr

/-- The throughput figure of `__call__`:
`idx / s if s > 0 else 0.` where `s = sum(time_measurements)`. -/
def throughput (idx : Nat) (samples : List ℚ) : ℚ :=
  let s := samples.sum
  if 0 < s then (idx : ℚ) / s else 0

/-- The loop of `ProgressTable.__call__` over the remaining elements.
`idx` is the `enumerate` counter and `samples` the
`time_measurements` list accumulated so far; after each yield the
elapsed-time sample `dur idx` is appended. -/
def instrumentAux {α : Type} (fire : Nat → Bool) (dur : Nat → ℚ) :
    List α → Nat → List ℚ → List α × List Redraw
  | [], _, _ => ([], [])
  | x :: xs, idx, samples =>
    let rest := instrumentAux fire dur xs (idx + 1) (samples ++ [dur idx])
    (x :: rest.1,
      (if fire idx then [⟨idx, throughput idx samples⟩] else []) ++ rest.2)

/-- The iteration wrapper `table(iterable)`: the yielded elements and
the redraw events, with the clock abstracted by the `fire` and `dur`
oracles. -/
def instrument {α : Type} (fire : Nat → Bool) (dur : Nat → ℚ) (xs : List α) :
    List α × List Redraw :=
  instrumentAux fire dur xs 0 []

/-- The sum of the elapsed-time samples accumulated before step `k`. -/
def sumSamples (dur : Nat → ℚ) (k : Nat) : ℚ :=
  ((List.range k).map dur).sum

/-! ### Dictionary lemmas -/

theorem lookupD_append_dflt {β : Type} (m : List (String × β)) (d : β) (k k' : String) :
    lookupD (m ++ [(k, d)]) d k' = lookupD m d k' := by
  induction m with
  | nil =>
    simp only [List.nil_append, lookupD]
    split <;> rfl
  | cons hd tl ih =>
    obtain ⟨a, b⟩ := hd
    show (if a = k' then b else lookupD (tl ++ [(k, d)]) d k') =
      (if a = k' then b else lookupD tl d k')
    rw [ih]

theorem lookupD_viv {β : Type} (m : List (String × β)) (d : β) (k k' : String) :
    lookupD (viv m d k) d k' = lookupD m d k' := by
  unfold viv
  split
  · rfl
  · exact lookupD_append_dflt m d k k'

theorem lookupD_vivAll {β : Type} (m : List (String × β)) (d : β) (ks : List String)
    (k' : String) : lookupD (vivAll m d ks) d k' = lookupD m d k' := by
  induction ks generalizing m with
  | nil => rfl
  | cons hd tl ih =>
    simp only [vivAll, List.foldl_cons]
    rw [show (List.foldl (fun acc k => viv acc d k) (viv m d hd) tl) = vivAll (viv m d hd) d tl from rfl]
    rw [ih, lookupD_viv]

theorem lookupD_setK_self {β : Type} (m : List (String × β)) (k : String) (v : β) (d : β) :
    lookupD (setK m k v) d k = v := by
  induction m with
  | nil => simp [setK, lookupD]
  | cons hd tl ih =>
    obtain ⟨a, b⟩ := hd
    by_cases h : a = k
    · simp [setK, h, lookupD]
    · simp [setK, h, lookupD, ih]

theorem lookupD_setK_ne {β : Type} (m : List (String × β)) (k k' : String) (v : β) (d : β)
    (h : k' ≠ k) : lookupD (setK m k v) d k' = lookupD m d k' := by
  induction m with
  | nil =>
    simp only [setK, lookupD]
    rw [if_neg (fun hk => h hk.symm)]
  | cons hd tl ih =>
    obtain ⟨a, b⟩ := hd
    by_cases ha : a = k
    · subst ha
      simp only [setK, if_pos rfl, lookupD]
      rw [if_neg (fun hk => h hk.symm), if_neg (fun hk => h hk.symm)]
    · simp only [setK, if_neg ha, lookupD, ih]

theorem viv_ne_nil {β : Type} (m : List (String × β)) (d : β) (k : String) :
    viv m d k ≠ [] := by
  unfold viv
  split
  · intro hc
    subst hc
    simp [hasKey] at *
  · intro hc
    exact absurd hc (List.append_ne_nil_of_right_ne_nil m (by simp))

theorem vivAll_ne_nil {β : Type} (m : List (String × β)) (d : β) (ks : List String)
    (h : m ≠ []) : vivAll m d ks ≠ [] := by
  induction ks generalizing m with
  | nil => exact h
  | cons hd tl ih =>
    simp only [vivAll, List.foldl_cons]
    exact ih (viv m d hd) (viv_ne_nil m d hd)

theorem setK_ne_nil {β : Type} (m : List (String × β)) (k : String) (v : β) :
    setK m k v ≠ [] := by
  cases m with
  | nil => simp [setK]
  | cons hd tl =>
    obtain ⟨a, b⟩ := hd
    simp only [setK]
    split <;> simp

/-! ### State lemmas for the table methods -/

theorem isEmpty_false_of_ne_nil {α : Type} (l : List α) (h : l ≠ []) :
    l.isEmpty = false := by
  cases l with
  | nil => exact absurd rfl h
  | cons hd tl => rfl

theorem ne_nil_of_isEmpty_false {α : Type} (l : List α) (h : l.isEmpty = false) :
    l ≠ [] := by
  cases l with
  | nil => simp [List.isEmpty] at h
  | cons hd tl => simp

namespace ProgressTable

theorem columns_print_header (s : ProgressTable) :
    (print_header s).columns = s.columns := rfl

theorem lw_print_header (s : ProgressTable) (n : String) :
    lookup_width (print_header s) n = lookup_width s n := by
  show lookupD (vivAll s.widths s.default_width s.columns) s.default_width n =
    lookupD s.widths s.default_width n
  exact lookupD_vivAll s.widths s.default_width s.columns n

theorem columns_print_row (s : ProgressTable) :
    (print_row s).columns = s.columns := by
  unfold print_row
  split <;> dsimp only <;> split <;> rfl

theorem lw_print_row (s : ProgressTable) (n : String) :
    lookup_width (print_row s) n = lookup_width s n := by
  unfold print_row
  cases h : s.header_printed <;> simp only [h, Bool.false_eq_true, if_true, if_false]
  · split
    · exact lw_print_header s n
    · show lookupD (vivAll (print_header s).widths (print_header s).default_width
        (print_header s).columns) (print_header s).default_width n = _
      rw [lookupD_vivAll]
      exact lw_print_header s n
  · split
    · rfl
    · show lookupD (vivAll s.widths s.default_width s.columns) s.default_width n = _
      exact lookupD_vivAll s.widths s.default_width s.columns n

theorem header_print_row (s : ProgressTable) :
    (print_row s).header_printed = true := by
  unfold print_row
  split <;> dsimp only <;> split <;> first | rfl | assumption

theorem frows_print_row (s : ProgressTable) :
    (print_row s).finished_rows = s.finished_rows := by
  unfold print_row
  split <;> dsimp only <;> split <;> rfl

theorem nrows_print_row (s : ProgressTable) :
    (print_row s).num_rows = s.num_rows := by
  unfold print_row
  split <;> dsimp only <;> split <;> rfl

theorem values_print_row (s : ProgressTable) (h : s.values.isEmpty = false) :
    (print_row s).values = vivAll s.values PyVal.dflt s.columns := by
  unfold print_row
  cases hh : s.header_printed <;> simp [hh, print_header, h]

theorem columns_next_row (s : ProgressTable) (b : Bool) :
    (next_row s b).columns = s.columns := rfl

theorem lw_next_row (s : ProgressTable) (b : Bool) (n : String) :
    lookup_width (next_row s b) n = lookup_width s n := rfl

theorem columns_close (s : ProgressTable) : (close s).columns = s.columns := by
  show (print_row s).columns = s.columns
  exact columns_print_row s

theorem lw_close (s : ProgressTable) (n : String) :
    lookup_width (close s) n = lookup_width s n := by
  show lookupD (vivAll (next_row (print_row s) true).widths
      (next_row (print_row s) true).default_width
      (next_row (print_row s) true).columns)
    (next_row (print_row s) true).default_width n = lookup_width s n
  rw [lookupD_vivAll]
  exact lw_print_row s n

theorem header_close (s : ProgressTable) : (close s).header_printed = false := rfl

theorem columns_dcRow (s : ProgressTable) (row : List PyVal) :
    (dcRow s row).columns = s.columns := by
  show (print_row _).columns = s.columns
  rw [columns_print_row]

theorem lw_dcRow (s : ProgressTable) (row : List PyVal) (n : String) :
    lookup_width (dcRow s row) n = lookup_width s n := by
  show lookup_width (print_row _) n = lookup_width s n
  rw [lw_print_row]
  rfl

theorem columns_dcGo (d : List (List PyVal)) (s : ProgressTable) :
    (settle (dcGo s d)).columns = s.columns := by
  induction d generalizing s with
  | nil => exact columns_close s
  | cons row rest ih =>
    unfold dcGo
    split
    · rw [ih, columns_dcRow]
    · rfl

theorem lw_dcGo (d : List (List PyVal)) (s : ProgressTable) (n : String) :
    lookup_width (settle (dcGo s d)) n = lookup_width s n := by
  induction d generalizing s with
  | nil => exact lw_close s n
  | cons row rest ih =>
    unfold dcGo
    split
    · rw [ih, lw_dcRow]
    · rfl

theorem columns_display_custom (s : ProgressTable) (d : List (List PyVal)) :
    (settle (display_custom s d)).columns = s.columns := by
  unfold display_custom
  split
  · rw [columns_dcGo, columns_close]
  · rw [columns_dcGo]

theorem lw_display_custom (s : ProgressTable) (d : List (List PyVal)) (n : String) :
    lookup_width (settle (display_custom s d)) n = lookup_width s n := by
  unfold display_custom
  split
  · rw [lw_dcGo, lw_close]
  · rw [lw_dcGo]

theorem columns_display (s : ProgressTable) :
    (settle (display s)).columns = s.columns := by
  unfold display
  split
  · rw [columns_display_custom, columns_close]
  · rw [columns_display_custom]

theorem lw_display (s : ProgressTable) (n : String) :
    lookup_width (settle (display s)) n = lookup_width s n := by
  unfold display
  split
  · rw [lw_display_custom, lw_close]
  · rw [lw_display_custom]

end ProgressTable

namespace ProgressTable

/-- C3: writing a cell through an unknown column key fails with a hard
error, and the error carries the state exactly as it was at the assert:
no buffer write and no history append happens on the failing path. -/
theorem setitem_unknown_error (s : ProgressTable) (k : String) (v : PyVal)
    (h : k ∉ s.columns) : setitem s k v = Except.error s := by
  unfold setitem
  rw [if_neg h]

/-- C3 witness at a concrete table. -/
theorem setitem_unknown_error_wit :
    "b" ∉ (init ["a"] 8 10).columns ∧
    setitem (init ["a"] 8 10) "b" (PyVal.int 1) = Except.error (init ["a"] 8 10) :=
  ⟨by decide, setitem_unknown_error _ "b" (PyVal.int 1) (by decide)⟩

/-- C5: `next_row(save=True)` appends a snapshot and bumps the counter
exactly when the buffer is non-empty, resets the buffer in every case,
and a second consecutive call is a no-op on the history and counter. -/
theorem next_row_save_spec (s : ProgressTable) :
    (next_row s true).values = [] ∧
    (s.values.isEmpty = false →
      (next_row s true).finished_rows = s.finished_rows ++ [s.values] ∧
      (next_row s true).num_rows = s.num_rows + 1) ∧
    (s.values.isEmpty = true →
      (next_row s true).finished_rows = s.finished_rows ∧
      (next_row s true).num_rows = s.num_rows) ∧
    (next_row (next_row s true) true).finished_rows = (next_row s true).finished_rows ∧
    (next_row (next_row s true) true).num_rows = (next_row s true).num_rows := by
  refine ⟨rfl, ?_, ?_, ?_, ?_⟩
  · intro h
    constructor <;> simp [next_row, h]
  · intro h
    constructor <;> simp [next_row, h]
  · show (next_row (next_row s true) true).finished_rows = _
    simp [next_row]
  · show (next_row (next_row s true) true).num_rows = _
    simp [next_row]

/-- C5 witness at a concrete table with a non-empty buffer. -/
theorem next_row_save_spec_wit :
    ({ init ["a"] 8 10 with
        values := [("a", PyVal.int 1)] } : ProgressTable).values.isEmpty = false ∧
    (next_row { init ["a"] 8 10 with values := [("a", PyVal.int 1)] } true).finished_rows =
      [[("a", PyVal.int 1)]] ∧
    (next_row { init ["a"] 8 10 with values := [("a", PyVal.int 1)] } true).num_rows = 1 :=
  ⟨rfl,
   ((next_row_save_spec { init ["a"] 8 10 with values := [("a", PyVal.int 1)] }).2.1 rfl).1,
   ((next_row_save_spec { init ["a"] 8 10 with values := [("a", PyVal.int 1)] }).2.1 rfl).2⟩

/-- C6: `to_list` projects the history in order: rows appear in
finalization order (a newly finalized row lands at the end), and each
exported row lists the cell values in column declaration order, one
entry per declared column. -/
theorem to_list_spec (s : ProgressTable) :
    to_list s =
      s.finished_rows.map (fun row => s.columns.map (fun col => lookupD row PyVal.dflt col)) ∧
    (∀ r, r ∈ to_list s → r.length = s.columns.length) ∧
    (s.values.isEmpty = false →
      to_list (next_row s true) =
        to_list s ++ [s.columns.map (fun col => lookupD s.values PyVal.dflt col)]) := by
  refine ⟨rfl, ?_, ?_⟩
  · intro r hr
    unfold to_list at hr
    obtain ⟨row, _, rfl⟩ := List.mem_map.1 hr
    simp
  · intro h
    unfold to_list next_row
    simp [h]

/-- C6 witness at a concrete table with one finished row and a pending
buffer. -/
theorem to_list_spec_wit :
    ({ init ["a", "b"] 8 10 with
        values := [("b", PyVal.int 2)],
        finished_rows := [[("a", PyVal.int 1)]] } : ProgressTable).values.isEmpty = false ∧
    to_list (next_row { init ["a", "b"] 8 10 with
        values := [("b", PyVal.int 2)],
        finished_rows := [[("a", PyVal.int 1)]] } true) =
      to_list { init ["a", "b"] 8 10 with
        values := [("b", PyVal.int 2)],
        finished_rows := [[("a", PyVal.int 1)]] } ++
      [({ init ["a", "b"] 8 10 with
          values := [("b", PyVal.int 2)],
          finished_rows := [[("a", PyVal.int 1)]] } : ProgressTable).columns.map
        (fun col => lookupD [("b", PyVal.int 2)] PyVal.dflt col)] :=
  ⟨rfl,
   (to_list_spec { init ["a", "b"] 8 10 with
      values := [("b", PyVal.int 2)],
      finished_rows := [[("a", PyVal.int 1)]] }).2.2 rfl⟩

/-- C7: once the header has been rendered, `add_column` fails with an
assertion-style error; and every successful cell write leaves the
header rendered, so `add_column` fails after any prior cell write. -/
theorem add_column_after_header_fails :
    (∀ (s : ProgressTable) (name : String) (w : Option Nat) (c : Option String),
      s.header_printed = true → add_column s name w c = Except.error s) ∧
    (∀ (s : ProgressTable) (k : String) (v : PyVal) (s' : ProgressTable),
      setitem s k v = Except.ok s' → s'.header_printed = true) := by
  constructor
  · intro s name w c h
    unfold add_column
    rw [if_pos h]
  · intro s k v s' h
    unfold setitem at h
    by_cases hk : k ∈ s.columns
    · rw [if_pos hk] at h
      cases h
      exact header_print_row _
    · rw [if_neg hk] at h
      cases h

/-- C7 witness: a frozen header rejects a new column, and a concrete
successful cell write leaves the header rendered. -/
theorem add_column_after_header_fails_wit :
    add_column { init [] 8 10 with header_printed := true } "x" none none =
      Except.error { init [] 8 10 with header_printed := true } ∧
    (settle (setitem (init ["a"] 8 10) "a" (PyVal.int 1))).header_printed = true :=
  ⟨add_column_after_header_fails.1 _ "x" none none rfl,
   add_column_after_header_fails.2 (init ["a"] 8 10) "a" (PyVal.int 1) _ rfl⟩

/-- C10: on a non-empty buffer, `close` appends the buffer contents to
the history (the appended snapshot agrees with the buffer at every
key), increments the row counter, and leaves the buffer empty and the
header flag cleared. -/
theorem close_flushes_buffer (s : ProgressTable) (h : s.values.isEmpty = false) :
    (close s).finished_rows =
      s.finished_rows ++ [vivAll s.values PyVal.dflt s.columns] ∧
    (∀ c, lookupD (vivAll s.values PyVal.dflt s.columns) PyVal.dflt c =
      lookupD s.values PyVal.dflt c) ∧
    (close s).num_rows = s.num_rows + 1 ∧
    (close s).values = [] ∧
    (close s).header_printed = false := by
  have hv : (print_row s).values = vivAll s.values PyVal.dflt s.columns :=
    values_print_row s h
  have hne : (print_row s).values.isEmpty = false := by
    rw [hv]
    exact isEmpty_false_of_ne_nil _
      (vivAll_ne_nil _ _ _ (ne_nil_of_isEmpty_false _ h))
  have hvv : vivAll s.values PyVal.dflt s.columns ≠ [] :=
    vivAll_ne_nil _ _ _ (ne_nil_of_isEmpty_false _ h)
  refine ⟨?_, fun c => lookupD_vivAll _ _ _ _, ?_, rfl, rfl⟩
  · show (next_row (print_row s) true).finished_rows = _
    simp [next_row, hne, hv, frows_print_row, hvv]
  · show (next_row (print_row s) true).num_rows = _
    simp [next_row, hne, hv, nrows_print_row, hvv]

/-- C10 witness at a concrete table. -/
theorem close_flushes_buffer_wit :
    ({ init ["a"] 8 10 with
        values := [("a", PyVal.int 1)] } : ProgressTable).values.isEmpty = false ∧
    (close { init ["a"] 8 10 with values := [("a", PyVal.int 1)] }).num_rows = 0 + 1 ∧
    (close { init ["a"] 8 10 with values := [("a", PyVal.int 1)] }).values = [] ∧
    (close { init ["a"] 8 10 with
        values := [("a", PyVal.int 1)] }).header_printed = false :=
  ⟨rfl,
   (close_flushes_buffer { init ["a"] 8 10 with values := [("a", PyVal.int 1)] } rfl).2.2.1,
   (close_flushes_buffer { init ["a"] 8 10 with values := [("a", PyVal.int 1)] } rfl).2.2.2.1,
   (close_flushes_buffer { init ["a"] 8 10 with values := [("a", PyVal.int 1)] } rfl).2.2.2.2⟩

end ProgressTable

/-! ### Iteration wrapper claims -/

theorem instrumentAux_fst {α : Type} (fire : Nat → Bool) (dur : Nat → ℚ) :
    ∀ (xs : List α) (idx : Nat) (samples : List ℚ),
      (instrumentAux fire dur xs idx samples).1 = xs := by
  intro xs
  induction xs with
  | nil => intro idx samples; rfl
  | cons x xs ih =>
    intro idx samples
    show x :: (instrumentAux fire dur xs (idx + 1) (samples ++ [dur idx])).1 = x :: xs
    rw [ih]

/-- C2: the iteration wrapper yields exactly the source elements, in
the source order, whatever the redraw schedule and the measured step
durations are: no filtering, batching or transformation happens. -/
theorem instrument_yields {α : Type} (fire : Nat → Bool) (dur : Nat → ℚ) (xs : List α) :
    (instrument fire dur xs).1 = xs ∧ (instrument fire dur xs).1.length = xs.length := by
  have h := instrumentAux_fst fire dur xs 0 []
  exact ⟨h, by rw [show (instrument fire dur xs).1 = xs from h]⟩

theorem instrumentAux_shown {α : Type} (fire : Nat → Bool) (dur : Nat → ℚ) :
    ∀ (xs : List α) (idx : Nat) (samples : List ℚ),
      samples = (List.range idx).map dur →
      ∀ r ∈ (instrumentAux fire dur xs idx samples).2,
        r.shown = throughput r.idx ((List.range r.idx).map dur) := by
  intro xs
  induction xs with
  | nil =>
    intro idx samples _ r hr
    simp [instrumentAux] at hr
  | cons x xs ih =>
    intro idx samples hs r hr
    have hr' : r ∈ (if fire idx then [(⟨idx, throughput idx samples⟩ : Redraw)] else []) ++
        (instrumentAux fire dur xs (idx + 1) (samples ++ [dur idx])).2 := hr
    rw [List.mem_append] at hr'
    rcases hr' with hhd | htl
    · by_cases hf : fire idx
      · rw [if_pos hf, List.mem_singleton] at hhd
        subst hhd
        rw [hs]
      · rw [if_neg hf] at hhd
        simp at hhd
    · exact ih (idx + 1) (samples ++ [dur idx])
        (by rw [hs, List.range_succ, List.map_append]; rfl) r htl

/-- C9: whenever a redraw fires during instrumented iteration, the
displayed throughput is the element index divided by the sum of the
elapsed-time samples accumulated so far when that sum is positive, and
zero otherwise (in particular when there are no samples yet, or when
the samples sum to zero, so the division never runs with a zero
divisor). -/
theorem throughput_guarded {α : Type} (fire : Nat → Bool) (dur : Nat → ℚ)
    (xs : List α) (r : Redraw) (hr : r ∈ (instrument fire dur xs).2) :
    (0 < sumSamples dur r.idx → r.shown = (r.idx : ℚ) / sumSamples dur r.idx) ∧
    (¬ 0 < sumSamples dur r.idx → r.shown = 0) := by
  have h := instrumentAux_shown fire dur xs 0 [] (by simp) r hr
  rw [h]
  unfold throughput sumSamples
  constructor
  · intro hpos
    rw [if_pos hpos]
  · intro hneg
    rw [if_neg hneg]

/-- C9 witness on a concrete two-element iteration where every step
fires a redraw and every step lasts one second. -/
theorem throughput_guarded_wit :
    (⟨1, 1⟩ : Redraw) ∈ (instrument (fun _ => true) (fun _ => (1 : ℚ)) [0, 1]).2 ∧
    0 < sumSamples (fun _ => (1 : ℚ)) 1 ∧
    (⟨1, 1⟩ : Redraw).shown = (((⟨1, 1⟩ : Redraw).idx : ℚ)) / sumSamples (fun _ => (1 : ℚ)) 1 :=
  ⟨by norm_num [instrument, instrumentAux, throughput],
   by norm_num [sumSamples, List.range_succ],
   (throughput_guarded (fun _ => true) (fun _ => (1 : ℚ)) [0, 1] ⟨1, 1⟩
      (by norm_num [instrument, instrumentAux, throughput])).1
     (by norm_num [sumSamples, List.range_succ])⟩

namespace ProgressTable

/-! ### Column-width and column-list behaviour across operations -/

/-- C1 counterexample: a column declared only through the constructor
keeps the configured default width 8, which is smaller than its
11-character name, already in the initial state. -/
theorem width_ctor_counterexample :
    lookup_width (init ["predictions"] 8 10) "predictions" < "predictions".length := by
  decide

/-- C1 (amended): a successful `add_column` establishes width at least
the name length for that column, and every subsequent operation
preserves the property for any column that has it; columns declared
only through the constructor's `columns` argument are merely looked up
at the default width, which the counterexample shows can be smaller
than the name length. -/
theorem add_column_width_ge_name :
    (∀ (s : ProgressTable) (name : String) (w : Option Nat) (c : Option String)
      (s' : ProgressTable), add_column s name w c = Except.ok s' →
      name.length ≤ lookup_width s' name) ∧
    (∀ (s : ProgressTable) (op : Op) (name : String),
      name.length ≤ lookup_width s name →
      name.length ≤ lookup_width (step s op) name) := by
  constructor
  · intro s name w c s' h
    unfold add_column at h
    by_cases hdr : s.header_printed = true
    · rw [if_pos hdr] at h
      cases h
    · rw [if_neg hdr] at h
      dsimp only at h
      cases h
      show name.length ≤ lookupD (setK s.widths name _) s.default_width name
      rw [lookupD_setK_self]
      split
      · exact le_refl _
      · exact le_of_not_lt (by assumption)
  · intro s op name h
    cases op with
    | addColumn m w c =>
      show name.length ≤ lookup_width (settle (add_column s m w c)) name
      unfold add_column
      by_cases hdr : s.header_printed = true
      · rw [if_pos hdr]
        exact h
      · rw [if_neg hdr]
        dsimp only [settle]
        by_cases hnm : name = m
        · subst hnm
          show name.length ≤ lookupD (setK s.widths name _) s.default_width name
          rw [lookupD_setK_self]
          split
          · exact le_refl _
          · exact le_of_not_lt (by assumption)
        · show name.length ≤ lookupD (setK s.widths m _) s.default_width name
          rw [lookupD_setK_ne _ _ _ _ _ hnm]
          exact h
    | setItem k v =>
      show name.length ≤ lookup_width (settle (setitem s k v)) name
      unfold setitem
      by_cases hk : k ∈ s.columns
      · rw [if_pos hk]
        dsimp only [settle]
        rw [lw_print_row]
        exact h
      · rw [if_neg hk]
        exact h
    | nextRow b => exact h
    | printRow =>
      show name.length ≤ lookup_width (print_row s) name
      rw [lw_print_row]
      exact h
    | printHeader =>
      show name.length ≤ lookup_width (print_header s) name
      rw [lw_print_header]
      exact h
    | closeOp =>
      show name.length ≤ lookup_width (close s) name
      rw [lw_close]
      exact h
    | callIter =>
      show name.length ≤
        lookup_width (print_row (if s.header_printed then s else print_header s)) name
      rw [lw_print_row]
      split
      · exact h
      · rw [lw_print_header]
        exact h
    | displayCustom d =>
      show name.length ≤ lookup_width (settle (display_custom s d)) name
      rw [lw_display_custom]
      exact h
    | displayOp =>
      show name.length ≤ lookup_width (settle (display s)) name
      rw [lw_display]
      exact h

/-- C1 witness: a concrete successful `add_column` whose name is
longer than the default width, and a concrete preservation step. -/
theorem add_column_width_ge_name_wit :
    add_column (init [] 8 10) "columnname" none none =
      Except.ok (settle (add_column (init [] 8 10) "columnname" none none)) ∧
    "columnname".length ≤
      lookup_width (settle (add_column (init [] 8 10) "columnname" none none)) "columnname" ∧
    "epoch".length ≤ lookup_width (init [] 12 10) "epoch" ∧
    "epoch".length ≤ lookup_width (step (init [] 12 10) Op.printHeader) "epoch" :=
  ⟨rfl,
   add_column_width_ge_name.1 (init [] 8 10) "columnname" none none _ rfl,
   by decide,
   add_column_width_ge_name.2 (init [] 12 10) Op.printHeader "epoch" (by decide)⟩

/-- C8 counterexample: `add_column` never deduplicates, so declaring
the same name twice leaves two equal entries in the display-order
list. -/
theorem columns_dup_counterexample :
    ¬ (run (init [] 8 10)
        [Op.addColumn "a" none none, Op.addColumn "a" none none]).columns.Nodup := by
  decide

theorem columns_step_cases (s : ProgressTable) (op : Op) :
    (step s op).columns = s.columns ∨
    ∃ m w c, op = Op.addColumn m w c ∧ (step s op).columns = s.columns ++ [m] := by
  cases op with
  | addColumn m w c =>
    by_cases hdr : s.header_printed = true
    · left
      show (settle (add_column s m w c)).columns = s.columns
      unfold add_column
      rw [if_pos hdr]
      rfl
    · right
      refine ⟨m, w, c, rfl, ?_⟩
      show (settle (add_column s m w c)).columns = s.columns ++ [m]
      unfold add_column
      rw [if_neg hdr]
      rfl
  | setItem k v =>
    left
    show (settle (setitem s k v)).columns = s.columns
    unfold setitem
    by_cases hk : k ∈ s.columns
    · rw [if_pos hk]
      exact columns_print_row _
    · rw [if_neg hk]
      rfl
  | nextRow b => left; rfl
  | printRow => left; exact columns_print_row s
  | printHeader => left; rfl
  | closeOp => left; exact columns_close s
  | callIter =>
    left
    show (print_row (if s.header_printed then s else print_header s)).columns = s.columns
    rw [columns_print_row]
    split <;> rfl
  | displayCustom d => left; exact columns_display_custom s d
  | displayOp => left; exact columns_display s

theorem addedNames_tail_sublist (op : Op) (ops : List Op) :
    (addedNames ops).Sublist (addedNames (op :: ops)) := by
  unfold addedNames
  rw [List.filterMap_cons]
  cases op with
  | addColumn m w c => exact List.sublist_cons_self _ _
  | setItem k v => exact List.Sublist.refl _
  | nextRow b => exact List.Sublist.refl _
  | printRow => exact List.Sublist.refl _
  | printHeader => exact List.Sublist.refl _
  | closeOp => exact List.Sublist.refl _
  | callIter => exact List.Sublist.refl _
  | displayCustom d => exact List.Sublist.refl _
  | displayOp => exact List.Sublist.refl _

theorem columns_run_sublist (s : ProgressTable) (ops : List Op) :
    (run s ops).columns.Sublist (s.columns ++ addedNames ops) := by
  induction ops generalizing s with
  | nil => simp [run, addedNames]
  | cons op ops ih =>
    have h1 : (run s (op :: ops)).columns.Sublist ((step s op).columns ++ addedNames ops) :=
      ih (step s op)
    rcases columns_step_cases s op with hc | ⟨m, w, c, hop, hc⟩
    · rw [hc] at h1
      exact h1.trans ((addedNames_tail_sublist op ops).append_left s.columns)
    · rw [hc, List.append_assoc, List.singleton_append] at h1
      subst hop
      exact h1.trans
        (List.Sublist.append_left (List.Sublist.refl _) s.columns)

/-- C8 (amended): the display-order column list grows only by
appending `add_column` names to the constructor's list, with no
deduplication; whenever the constructor's columns together with all
names passed to `add_column` are pairwise distinct, the column list
stays duplicate-free after any call sequence. -/
theorem columns_nodup_of_distinct (s : ProgressTable) (ops : List Op)
    (h : (s.columns ++ addedNames ops).Nodup) : (run s ops).columns.Nodup :=
  h.sublist (columns_run_sublist s ops)

/-- C8 witness on a concrete call sequence with distinct names. -/
theorem columns_nodup_of_distinct_wit :
    ((init ["a"] 8 10).columns ++ addedNames [Op.addColumn "b" none none]).Nodup ∧
    (run (init ["a"] 8 10) [Op.addColumn "b" none none]).columns.Nodup :=
  ⟨by decide, columns_nodup_of_distinct _ _ (by decide)⟩

/-- C4 counterexample: at full completion with available width 0 the
fill count is the clamp value 1, not the available width. -/
theorem num_hashes_zero_width : num_hashes 1 1 0 ≠ 0 := by
  unfold num_hashes
  norm_num

/-- C4 (amended): the fill count is `max(ceil(i / n * w), 1)`; it is
at least 1 for every bar, monotonically non-decreasing in the
completed count, and equals the full available width at completion
provided the available width is at least 1 (for smaller widths the
clamp to 1 takes over, as the counterexample shows). -/
theorem num_hashes_spec (n i j : Nat) (w : Int) (hn : 0 < n) (hij : i ≤ j) :
    num_hashes i n w = max (Int.ceil ((i : ℚ) / (n : ℚ) * (w : ℚ))) 1 ∧
    1 ≤ num_hashes i n w ∧
    num_hashes i n w ≤ num_hashes j n w ∧
    (1 ≤ w → num_hashes n n w = w) := by
  refine ⟨rfl, le_max_right _ _, ?_, ?_⟩
  · unfold num_hashes
    rcases le_or_lt 0 w with hw | hw
    · have hq : (i : ℚ) / n * w ≤ (j : ℚ) / n * w := by
        have hw' : (0 : ℚ) ≤ (w : ℚ) := by exact_mod_cast hw
        have hij' : (i : ℚ) ≤ (j : ℚ) := by exact_mod_cast hij
        gcongr
      exact max_le_max (Int.ceil_mono hq) (le_refl 1)
    · have key : ∀ m : Nat, Int.ceil ((m : ℚ) / n * w) ≤ 1 := by
        intro m
        rw [Int.ceil_le]
        have hm : (m : ℚ) / n * w ≤ 0 := by
          apply mul_nonpos_of_nonneg_of_nonpos
          · positivity
          · exact_mod_cast hw.le
        calc (m : ℚ) / n * w ≤ 0 := hm
          _ ≤ ((1 : ℤ) : ℚ) := by norm_num
      rw [max_eq_right (key i), max_eq_right (key j)]
  · intro hw
    unfold num_hashes
    rw [div_self (by exact_mod_cast hn.ne.symm : (n : ℚ) ≠ 0), one_mul,
      Int.ceil_intCast, max_eq_left hw]

/-- C4 witness at total 2, available width 4, completed counts 1 and 2. -/
theorem num_hashes_spec_wit :
    0 < 2 ∧ 1 ≤ 2 ∧ 1 ≤ (4 : Int) ∧
    1 ≤ num_hashes 1 2 4 ∧ num_hashes 1 2 4 ≤ num_hashes 2 2 4 ∧
    num_hashes 2 2 4 = 4 := by
  refine ⟨by norm_num, by norm_num, by norm_num, ?_, ?_, ?_⟩
  · exact (num_hashes_spec 2 1 2 4 (by norm_num) (by norm_num)).2.1
  · exact (num_hashes_spec 2 1 2 4 (by norm_num) (by norm_num)).2.2.1
  · exact (num_hashes_spec 2 2 2 4 (by norm_num) (le_refl 2)).2.2.2 (by norm_num)

end ProgressTable
